import Mathlib

/-!
Shallow embedding of the computational kernel of the Checksum-Integrity-Hub
repository: the additive checksum (`additiveChecksum`, `calculateChecksum`
from src/utils/hashUtils.ts), the Hamming(7,4) codec (`Hamming.encode`,
`Hamming.decode` from the same file), and the bit-flip simulation (`flipBit`
from src/App.tsx).

Strings of the source are modelled as Lean `String`s (the Hamming functions)
or as lists of UTF-16 code units (the checksum, which only reads
`charCodeAt`).  JavaScript numeric semantics that matter to the source are
made explicit: the 32-bit signed coercion performed by the `&` operator, and
the NaN / undefined values that flow through the unvalidated Hamming code.
Sums of code units stay far below 2^53, where JavaScript doubles behave as
exact integers, so accumulation is modelled with exact natural numbers.
-/

namespace IntegrityHub

/-- JavaScript ToInt32 applied to a non-negative integer: the low 32 bits of
`m` reinterpreted as a signed two's-complement value. -/
def toInt32 (m : Nat) : Int :=
  if m % 2 ^ 32 < 2 ^ 31 then ((m % 2 ^ 32 : Nat) : Int)
  else ((m % 2 ^ 32 : Nat) : Int) - 2 ^ 32

/-- JavaScript `a & b` for non-negative operands: both sides are coerced to
Int32 (whose bit pattern is the low 32 bits), the patterns are ANDed, and the
result is read back as a signed Int32. -/
def jsAnd (a b : Nat) : Int := toInt32 ((a % 2 ^ 32) &&& (b % 2 ^ 32))

/-- Hexadecimal digits of a natural number, lowercase, as produced by
JavaScript `Number.prototype.toString(16)` on a non-negative integer. -/
def natToHex (n : Nat) : String := String.mk (Nat.toDigits 16 n)

/-- JavaScript `n.toString(16)` for an integer: digits of the magnitude, with
a leading minus sign when `n` is negative. -/
def intToHex (n : Int) : String :=
  if n < 0 then "-" ++ natToHex n.natAbs else natToHex n.toNat

/-- JavaScript `String.prototype.padStart(len, c)`: left-pad to `len`
characters; a string already at least `len` long is returned unchanged. -/
def padStart (s : String) (len : Nat) (c : Char) : String :=
  String.mk (List.replicate (len - s.length) c) ++ s

/-- AdditiveOptions from src/types (part_000): register width and initial
accumulator value.  The TS type annotates `bitWidth: 8 | 16 | 32`, but the
claims quantify over other widths, so it is modelled as an arbitrary `Nat`;
`initialValue` is a non-negative integer. -/
structure AdditiveOptions where
  bitWidth : Nat
  initialValue : Nat
deriving DecidableEq, Repr

/-- Mask selected by `additiveChecksum`: `0xFFFF` unless the width is 8 or
32 (the source initialises `mask = 0xFFFF` and only overrides those cases). -/
def maskFor (w : Nat) : Nat :=
  if w = 8 then 0xFF else if w = 32 then 0xFFFFFFFF else 0xFFFF

/-- Pad length selected by `additiveChecksum`: 4 unless the width is 8 or 32. -/
def padFor (w : Nat) : Nat :=
  if w = 8 then 2 else if w = 32 then 8 else 4

/-- Accumulation loop of `additiveChecksum`: starting from `initialValue`,
add each UTF-16 code unit of the message left to right. -/
def additiveSum (message : List Nat) (options : AdditiveOptions) : Nat :=
  message.foldl (fun acc c => acc + c) options.initialValue

/-- Numeric value `sum & mask` computed by `additiveChecksum` before
formatting (a signed JavaScript Int32). -/
def additiveMasked (message : List Nat) (options : AdditiveOptions) : Int :=
  jsAnd (additiveSum message options) (maskFor options.bitWidth)

/-- JavaScript `String.prototype.toUpperCase()` on the ASCII strings produced
here: uppercase every character. -/
def jsToUpper (s : String) : String := String.mk (s.data.map Char.toUpper)

/-- Model of `additiveChecksum` (src/utils/hashUtils.ts lines 4-21), with the
message given as its list of UTF-16 code units (all `charCodeAt` exposes):
`(sum & mask).toString(16).toUpperCase().padStart(pad, '0')`. -/
def additiveChecksum (message : List Nat) (options : AdditiveOptions) : String :=
  padStart (jsToUpper (intToHex (additiveMasked message options)))
    (padFor options.bitWidth) '0'

/-- HashAlgorithm enum from src/types (part_000); its only member is
`ADDITIVE = 'Additive Checksum'`. -/
inductive HashAlgorithm where
  | additive
deriving DecidableEq, Repr

/-- Model of the exported `calculateChecksum` (src/utils/hashUtils.ts lines
23-31): `if (!data) return ''` short-circuits the falsy empty string, and
otherwise the additive checksum runs with the given options or the default
`{bitWidth: 16, initialValue: 0}`.  The `algorithm` argument is unread. -/
def calculateChecksum (data : List Nat) (_algorithm : HashAlgorithm)
    (additiveOptions : Option AdditiveOptions) : String :=
  if data.isEmpty then ""
  else additiveChecksum data (additiveOptions.getD ⟨16, 0⟩)

/-- JavaScript runtime values flowing through the untyped Hamming code:
integers, NaN, and undefined. -/
inductive JNum where
  | num (n : Int)
  | nan
  | undefined
deriving DecidableEq, Repr

/-- JavaScript addition on these values: any NaN or undefined operand makes
the result NaN. -/
def jadd : JNum → JNum → JNum
  | .num a, .num b => .num (a + b)
  | _, _ => .nan

/-- JavaScript multiplication by an integer literal. -/
def jmul : JNum → Int → JNum
  | .num a, k => .num (a * k)
  | _, _ => .nan

/-- JavaScript subtraction of an integer literal. -/
def jsub : JNum → Int → JNum
  | .num a, k => .num (a - k)
  | _, _ => .nan

/-- JavaScript `x % 2`.  The dividends reaching it in this code are
non-negative integers (digit sums) or NaN, where `Int.emod` agrees with the
JavaScript remainder. -/
def jmod2 : JNum → JNum
  | .num a => .num (a.emod 2)
  | _ => .nan

/-- JavaScript `Number(c)` for a single character, as applied by
`split('').map(Number)`: a digit maps to its value, whitespace to 0, and
anything else to NaN. -/
def jsNumberOfChar (c : Char) : JNum :=
  if c.isDigit then .num ((c.toNat - 48 : Nat) : Int)
  else if c.isWhitespace then .num 0
  else .nan

/-- JavaScript array read `l[i]` at a non-negative integer literal index:
out-of-range reads give undefined. -/
def jgetN (l : List JNum) (i : Nat) : JNum := l.getD i .undefined

/-- JavaScript array read `l[i]` where the index is itself a runtime value
(`corrected[errorPos - 1]`): NaN or negative indices give undefined. -/
def jgetIdx (l : List JNum) (i : JNum) : JNum :=
  match i with
  | .num k => if 0 ≤ k then l.getD k.toNat .undefined else .undefined
  | _ => .undefined

/-- JavaScript array element write `l[i] = v` at a runtime index.  A NaN or
negative index only creates a non-element property, leaving the elements
unchanged; the integer indices reaching this in `decode` lie in `[0, 6]` and
within the array, where `List.set` matches the JavaScript update. -/
def jsetIdx (l : List JNum) (i : JNum) (v : JNum) : List JNum :=
  match i with
  | .num k => if 0 ≤ k then l.set k.toNat v else l
  | _ => l

/-- JavaScript template-literal rendering of one of these values. -/
def jstr : JNum → String
  | .num a => toString a
  | .nan => "NaN"
  | .undefined => "undefined"

/-- JavaScript `Array.prototype.join('')`: like `jstr` except that undefined
renders as the empty string. -/
def jjoin (l : List JNum) : String :=
  String.join (l.map fun v => match v with | .undefined => "" | v => jstr v)

namespace Hamming

/-- Model of `Hamming.encode` (src/utils/hashUtils.ts lines 37-43): map the
characters through `Number`, form the three even-parity bits, and interpolate
`p1 p2 d0 p3 d1 d2 d3` into a template literal.  There is no input
validation. -/
def encode (data4 : String) : String :=
  let d := data4.data.map jsNumberOfChar
  let p1 := jmod2 (jadd (jadd (jgetN d 0) (jgetN d 1)) (jgetN d 3))
  let p2 := jmod2 (jadd (jadd (jgetN d 0) (jgetN d 2)) (jgetN d 3))
  let p3 := jmod2 (jadd (jadd (jgetN d 1) (jgetN d 2)) (jgetN d 3))
  jstr p1 ++ jstr p2 ++ jstr (jgetN d 0) ++ jstr p3 ++
    jstr (jgetN d 1) ++ jstr (jgetN d 2) ++ jstr (jgetN d 3)

/-- Return value of `Hamming.decode`: the extracted payload and
`errorPos === 0 ? null : errorPos`. -/
structure DecodeResult where
  corrected : String
  errorPos : Option JNum
deriving DecidableEq, Repr

/-- Model of `Hamming.decode` (src/utils/hashUtils.ts lines 44-57): syndrome
bits `s1, s2, s3` from the received bits, error position
`s1 + s2*2 + s3*4`, flip of the addressed bit in a copy when the position is
not strictly equal to 0, then payload extraction from positions 3, 5, 6, 7
joined with `''`.  There is no input validation. -/
def decode (bits7 : String) : DecodeResult :=
  let b := bits7.data.map jsNumberOfChar
  let s1 := jmod2 (jadd (jadd (jadd (jgetN b 0) (jgetN b 2)) (jgetN b 4)) (jgetN b 6))
  let s2 := jmod2 (jadd (jadd (jadd (jgetN b 1) (jgetN b 2)) (jgetN b 5)) (jgetN b 6))
  let s3 := jmod2 (jadd (jadd (jadd (jgetN b 3) (jgetN b 4)) (jgetN b 5)) (jgetN b 6))
  let errorPos := jadd (jadd s1 (jmul s2 2)) (jmul s3 4)
  let corrected :=
    if errorPos ≠ JNum.num 0 then
      jsetIdx b (jsub errorPos 1)
        (if jgetIdx b (jsub errorPos 1) = JNum.num 0 then JNum.num 1 else JNum.num 0)
    else b
  let dataBits := [jgetN corrected 2, jgetN corrected 4, jgetN corrected 5, jgetN corrected 6]
  ⟨jjoin dataBits, if errorPos = JNum.num 0 then none else some errorPos⟩

end Hamming

/-- Model of the pure string transform inside `flipBit` (src/App.tsx lines
141-153): split the received codeword into characters, replace the character
at `index` by `'1'` if it reads `'0'` and by `'0'` otherwise, and re-join.
The caller only invokes it with `index` in `[0, 6]`, within the 7-character
codeword, where `List.set` matches the JavaScript element update. -/
def flipBit (received : String) (index : Nat) : String :=
  String.mk (received.data.set index
    (if received.data.getD index 'x' = '0' then '1' else '0'))

/-- Strict binary string: every character is '0' or '1'. -/
def isBinary (s : String) : Prop := ∀ c ∈ s.data, c = '0' ∨ c = '1'

instance (s : String) : Decidable (isBinary s) :=
  inferInstanceAs (Decidable (∀ c ∈ s.data, c = '0' ∨ c = '1'))

/-! Helper lemmas about the JavaScript numeric primitives. -/

theorem foldl_add_eq (l : List Nat) (v : Nat) :
    l.foldl (fun acc c => acc + c) v = v + l.sum := by
  induction l generalizing v with
  | nil => simp
  | cons a t ih => simp [List.foldl, ih]; omega

theorem toInt32_modEq (m : Nat) : toInt32 m ≡ (m : Int) [ZMOD (2 : Int) ^ 32] := by
  have hcast : ((m % 2 ^ 32 : Nat) : Int) = (m : Int) % (2 : Int) ^ 32 := by
    push_cast
    rfl
  unfold toInt32
  split
  · rw [hcast]
    exact Int.emod_emod_of_dvd _ dvd_rfl
  · show _ % _ = _ % _
    rw [hcast, Int.emod_sub_cancel]
    exact Int.emod_emod_of_dvd _ dvd_rfl

theorem natCast_mod_modEq (n k : Nat) :
    ((n % k : Nat) : Int) ≡ (n : Int) [ZMOD (k : Int)] := by
  show _ % _ = _ % _
  rw [Int.natCast_mod]
  exact Int.emod_emod_of_dvd _ dvd_rfl

theorem jsAnd_pow_modEq (n k : Nat) (hk : k ≤ 32) :
    jsAnd n (2 ^ k - 1) ≡ (n : Int) [ZMOD (2 : Int) ^ k] := by
  unfold jsAnd
  have hle : (2 : Nat) ^ k ≤ 2 ^ 32 := Nat.pow_le_pow_right (by norm_num) hk
  have hlt : 2 ^ k - 1 < 2 ^ 32 := by omega
  rw [Nat.mod_eq_of_lt hlt, Nat.and_pow_two_sub_one_eq_mod,
    Nat.mod_mod_of_dvd _ (pow_dvd_pow 2 hk)]
  have hdvd : ((2 : Int) ^ k) ∣ ((2 : Int) ^ 32) := pow_dvd_pow 2 hk
  have h1 : toInt32 (n % 2 ^ k) ≡ ((n % 2 ^ k : Nat) : Int) [ZMOD (2 : Int) ^ k] :=
    (toInt32_modEq (n % 2 ^ k)).of_dvd hdvd
  refine h1.trans ?_
  have h2 := natCast_mod_modEq n (2 ^ k)
  have hcast : (((2 : Nat) ^ k : Nat) : Int) = (2 : Int) ^ k := by push_cast; rfl
  rw [hcast] at h2
  exact h2

/-- Value of the checksum accumulator modulo the register width: for each
supported width the masked sum is congruent to `initialValue` plus the sum of
the code units. -/
theorem additiveMasked_modEq (message : List Nat) (v w : Nat)
    (hw : w = 8 ∨ w = 16 ∨ w = 32) :
    additiveMasked message ⟨w, v⟩ ≡
      ((v : Int) + (message.sum : Int)) [ZMOD (2 : Int) ^ w] := by
  unfold additiveMasked additiveSum maskFor
  rw [foldl_add_eq]
  have hcast : ((v + message.sum : Nat) : Int) = (v : Int) + (message.sum : Int) := by
    push_cast
    rfl
  rcases hw with rfl | rfl | rfl
  · have h := jsAnd_pow_modEq (v + message.sum) 8 (by norm_num)
    rw [hcast] at h
    norm_num at h ⊢
    exact h
  · have h := jsAnd_pow_modEq (v + message.sum) 16 (by norm_num)
    rw [hcast] at h
    norm_num at h ⊢
    exact h
  · have h := jsAnd_pow_modEq (v + message.sum) 32 (by norm_num)
    rw [hcast] at h
    norm_num at h ⊢
    exact h

/-! Theorems about the additive checksum claims. -/

/-- C4: at bitWidth 32 the claimed unsigned masking fails: with empty message
and initialValue 2^31 the code computes `sum & 0xFFFFFFFF` under JavaScript
signed-Int32 semantics and renders `"-80000000"`, not the 8-character
uppercase hex string `"80000000"` equal to the sum modulo 2^32. -/
theorem additiveChecksum_sign_bug_at_32_bits :
    additiveChecksum [] ⟨32, 2147483648⟩ = "-80000000" := rfl

/-- C5 counterexample: the exported checksum operation applied to the empty
message returns the empty string, not the formatted initial value "0000". -/
theorem calculateChecksum_empty_not_formatted :
    calculateChecksum [] HashAlgorithm.additive (some ⟨16, 0⟩) = "" ∧
    calculateChecksum [] HashAlgorithm.additive (some ⟨16, 0⟩) ≠ "0000" :=
  ⟨rfl, by decide⟩

/-- C5 (amended): for the empty message the engine-level `additiveChecksum`
returns the masked and formatted initial value ("0000" / "00" / "00000000"
at widths 16 / 8 / 32 with initialValue 0), while the exported
`calculateChecksum` short-circuits the empty string to "". -/
theorem additiveChecksum_empty_formats_initial :
    additiveChecksum [] ⟨16, 0⟩ = "0000" ∧ additiveChecksum [] ⟨8, 0⟩ = "00" ∧
    additiveChecksum [] ⟨32, 0⟩ = "00000000" ∧
    calculateChecksum [] HashAlgorithm.additive (some ⟨16, 0⟩) = "" :=
  ⟨rfl, rfl, rfl, rfl⟩

/-- C6 counterexample: bitWidth 24 is not rejected; the code returns the
16-bit-formatted checksum "0000" instead of failing with UnsupportedConfig. -/
theorem additiveChecksum_width24_returns_checksum :
    additiveChecksum [] ⟨24, 0⟩ = "0000" := rfl

/-- C6 (amended): a bitWidth outside {8, 16, 32} is not a reported error;
`additiveChecksum` silently falls back to the 16-bit behaviour (mask 0xFFFF,
pad to 4 characters). -/
theorem additiveChecksum_unsupported_width_defaults_to_16 :
    ∀ (message : List Nat) (v w : Nat), w ≠ 8 → w ≠ 32 →
    additiveChecksum message ⟨w, v⟩ = additiveChecksum message ⟨16, v⟩ := by
  intro message v w h8 h32
  simp only [additiveChecksum, additiveMasked, additiveSum, maskFor, padFor,
    if_neg h8, if_neg h32]
  norm_num

/-- Witness for C6 (amended) at message [65], width 24. -/
theorem additiveChecksum_unsupported_width_defaults_to_16_witness :
    (24 ≠ 8) ∧ (24 ≠ 32) ∧
    additiveChecksum [65] ⟨24, 1⟩ = additiveChecksum [65] ⟨16, 1⟩ :=
  ⟨by decide, by decide,
    additiveChecksum_unsupported_width_defaults_to_16 [65] 1 24 (by decide) (by decide)⟩

/-- C8: for a fixed message and supported bitWidth, changing the initial
value from v1 to v2 shifts the numeric value of the checksum by exactly
v2 - v1 modulo 2^bitWidth. -/
theorem additive_initial_value_shift (message : List Nat) (w v1 v2 : Nat)
    (hw : w = 8 ∨ w = 16 ∨ w = 32) :
    additiveMasked message ⟨w, v2⟩ ≡
      additiveMasked message ⟨w, v1⟩ + ((v2 : Int) - (v1 : Int)) [ZMOD (2 : Int) ^ w] := by
  have h1 := additiveMasked_modEq message v2 w hw
  have h2 := (additiveMasked_modEq message v1 w hw).symm
  have h3 := h2.add_right ((v2 : Int) - (v1 : Int))
  have heq : (v1 : Int) + (message.sum : Int) + ((v2 : Int) - (v1 : Int))
      = (v2 : Int) + (message.sum : Int) := by ring
  rw [heq] at h3
  exact h1.trans h3

/-- Witness for C8 at message [72, 105], width 8, initial values 3 and 300. -/
theorem additive_initial_value_shift_witness :
    ((8 : Nat) = 8 ∨ (8 : Nat) = 16 ∨ (8 : Nat) = 32) ∧
    additiveMasked [72, 105] ⟨8, 300⟩ ≡
      additiveMasked [72, 105] ⟨8, 3⟩ +
        (((300 : Nat) : Int) - ((3 : Nat) : Int)) [ZMOD (2 : Int) ^ 8] :=
  ⟨by decide, additive_initial_value_shift [72, 105] 8 3 300 (by decide)⟩

/-- C10: for every algorithm and every present-or-absent additive config,
the exported `calculateChecksum` applied to the empty message returns the
empty string, before any summation, masking, or formatting. -/
theorem calculateChecksum_empty_short_circuit :
    ∀ (algorithm : HashAlgorithm) (options : Option AdditiveOptions),
    calculateChecksum [] algorithm options = "" := fun _ _ => rfl

/-! Theorems about the Hamming codec claims. -/

/-- C2: decoding an unmodified codeword `encode s` of any 4-character binary
payload `s` recovers the payload and reports no error position. -/
theorem hamming_encode_decode_roundtrip (s : String)
    (h4 : s.length = 4) (hb : isBinary s) :
    Hamming.decode (Hamming.encode s) = ⟨s, none⟩ := by
  obtain ⟨l⟩ := s
  have h4' : l.length = 4 := h4
  have hb' : ∀ c ∈ l, c = '0' ∨ c = '1' := hb
  rcases l with _ | ⟨a, _ | ⟨b, _ | ⟨c, _ | ⟨d, _ | ⟨e, t⟩⟩⟩⟩⟩ <;>
    simp only [List.length] at h4' <;> try omega
  have ha := hb' a (by simp)
  have hbb := hb' b (by simp)
  have hc := hb' c (by simp)
  have hd := hb' d (by simp)
  rcases ha with rfl | rfl <;> rcases hbb with rfl | rfl <;>
    rcases hc with rfl | rfl <;> rcases hd with rfl | rfl <;> decide

/-- Witness for C2 at the payload "1011". -/
theorem hamming_encode_decode_roundtrip_witness :
    (("1011" : String).length = 4 ∧ isBinary "1011") ∧
    Hamming.decode (Hamming.encode "1011") = ⟨"1011", none⟩ :=
  ⟨⟨by decide, by decide⟩,
    hamming_encode_decode_roundtrip "1011" (by decide) (by decide)⟩

/-- Parity-equation encoder written from the spec's words (section 4.2): for
payload bits d0 d1 d2 d3 in input order, even-parity bits
p1 = d0 xor d1 xor d3, p2 = d0 xor d2 xor d3, p3 = d1 xor d2 xor d3, and
codeword [p1, p2, d0, p3, d1, d2, d3] at 1-indexed positions 1..7. -/
def hammingEncodeSpec (d0 d1 d2 d3 : Bool) : List Bool :=
  [xor d0 (xor d1 d3), xor d0 (xor d2 d3), d0, xor d1 (xor d2 d3), d1, d2, d3]

/-- Character rendering of a bit. -/
def bitChar (b : Bool) : Char := if b then '1' else '0'

/-- Bit denoted by a binary character. -/
def charBit (c : Char) : Bool := c = '1'

/-- C3: on every 4-character binary payload, `Hamming.encode` produces
exactly the codeword [p1, p2, d0, p3, d1, d2, d3] given by the spec's parity
equations. -/
theorem hamming_encode_matches_parity_spec (s : String)
    (h4 : s.length = 4) (hb : isBinary s) :
    Hamming.encode s = String.mk ((hammingEncodeSpec
      (charBit (s.data.getD 0 'x')) (charBit (s.data.getD 1 'x'))
      (charBit (s.data.getD 2 'x')) (charBit (s.data.getD 3 'x'))).map bitChar) := by
  obtain ⟨l⟩ := s
  have h4' : l.length = 4 := h4
  have hb' : ∀ c ∈ l, c = '0' ∨ c = '1' := hb
  rcases l with _ | ⟨a, _ | ⟨b, _ | ⟨c, _ | ⟨d, _ | ⟨e, t⟩⟩⟩⟩⟩ <;>
    simp only [List.length] at h4' <;> try omega
  have ha := hb' a (by simp)
  have hbb := hb' b (by simp)
  have hc := hb' c (by simp)
  have hd := hb' d (by simp)
  rcases ha with rfl | rfl <;> rcases hbb with rfl | rfl <;>
    rcases hc with rfl | rfl <;> rcases hd with rfl | rfl <;> decide

/-- Witness for C3 at the payload "1011", whose spec codeword is "0110011". -/
theorem hamming_encode_matches_parity_spec_witness :
    (("1011" : String).length = 4 ∧ isBinary "1011") ∧
    Hamming.encode "1011" = "0110011" :=
  ⟨⟨by decide, by decide⟩,
    (hamming_encode_matches_parity_spec "1011" (by decide) (by decide)).trans
      (by decide)⟩

/-- C1: flipping exactly the bit at 1-indexed position k (1 ≤ k ≤ 7) of the
codeword of any 4-character binary payload and decoding corrects the payload
back and reports error position k. -/
theorem hamming_single_error_correction (s : String) (k : Nat)
    (h4 : s.length = 4) (hb : isBinary s) (hk1 : 1 ≤ k) (hk7 : k ≤ 7) :
    Hamming.decode (flipBit (Hamming.encode s) (k - 1)) =
      ⟨s, some (JNum.num (k : Int))⟩ := by
  obtain ⟨l⟩ := s
  have h4' : l.length = 4 := h4
  have hb' : ∀ c ∈ l, c = '0' ∨ c = '1' := hb
  rcases l with _ | ⟨a, _ | ⟨b, _ | ⟨c, _ | ⟨d, _ | ⟨e, t⟩⟩⟩⟩⟩ <;>
    simp only [List.length] at h4' <;> try omega
  have ha := hb' a (by simp)
  have hbb := hb' b (by simp)
  have hc := hb' c (by simp)
  have hd := hb' d (by simp)
  interval_cases k <;>
    rcases ha with rfl | rfl <;> rcases hbb with rfl | rfl <;>
    rcases hc with rfl | rfl <;> rcases hd with rfl | rfl <;> decide

/-- Witness for C1 at the payload "1011" and flipped position 3. -/
theorem hamming_single_error_correction_witness :
    (("1011" : String).length = 4 ∧ isBinary "1011" ∧ 1 ≤ 3 ∧ 3 ≤ 7) ∧
    Hamming.decode (flipBit (Hamming.encode "1011") (3 - 1)) =
      ⟨"1011", some (JNum.num ((3 : Nat) : Int))⟩ :=
  ⟨⟨by decide, by decide, by decide, by decide⟩,
    hamming_single_error_correction "1011" 3 (by decide) (by decide)
      (by decide) (by decide)⟩

/-- C7 counterexample: `Hamming.encode` applied to the 3-character payload
"101" does not fail; it returns the string "NaNNaN1NaN01undefined" computed
under JavaScript NaN/undefined semantics. -/
theorem hamming_encode_invalid_input_returns_string :
    Hamming.encode "101" = "NaNNaN1NaN01undefined" := by decide

/-- C7 (amended): `Hamming.encode` and `Hamming.decode` perform no input
validation: wrong-length or non-binary inputs are processed with JavaScript
NaN/undefined semantics and still return a result (encode "10121" yields the
7-character string "1011012"; decode "101" yields payload "1" with a NaN
error position); only the UI caller guards the payload length. -/
theorem hamming_no_input_validation :
    Hamming.encode "10121" = "1011012" ∧
    Hamming.decode "101" = ⟨"1", some JNum.nan⟩ :=
  ⟨by decide, by decide⟩

/-! Helper lemmas about `List.set` and `List.getD` for the flipBit claim. -/

theorem getD_set_self {α : Type} (l : List α) (i : Nat) (x d : α)
    (h : i < l.length) : (l.set i x).getD i d = x := by
  rw [List.getD_eq_getElem?_getD, List.getElem?_set_self h]
  rfl

theorem getD_set_ne {α : Type} (l : List α) (i j : Nat) (x d : α)
    (hij : i ≠ j) : (l.set i x).getD j d = l.getD j d := by
  rw [List.getD_eq_getElem?_getD, List.getElem?_set_ne hij,
    ← List.getD_eq_getElem?_getD]

theorem set_getD_self {α : Type} (l : List α) (i : Nat) (d : α)
    (h : i < l.length) : l.set i (l.getD i d) = l := by
  apply List.ext_getElem?
  intro n
  by_cases hn : n = i
  · subst hn
    rw [List.getElem?_set_self h, List.getD_eq_getElem?_getD,
      List.getElem?_eq_getElem h]
    rfl
  · exact List.getElem?_set_ne fun hh => hn hh.symm

theorem getD_mem {α : Type} (l : List α) (i : Nat) (d : α)
    (h : i < l.length) : l.getD i d ∈ l := by
  rw [List.getD_eq_getElem?_getD, List.getElem?_eq_getElem h]
  simp

/-- C9: on a 7-character binary codeword and an index in [0, 6], `flipBit`
keeps the length, toggles exactly the addressed character, leaves every other
position unchanged, and is its own inverse. -/
theorem flipBit_toggles_exactly_one_bit (s : String) (i : Nat)
    (h7 : s.length = 7) (hb : isBinary s) (hi : i < 7) :
    (flipBit s i).length = 7 ∧
    (flipBit s i).data.getD i 'x' ≠ s.data.getD i 'x' ∧
    (∀ j, j < 7 → j ≠ i → (flipBit s i).data.getD j 'x' = s.data.getD j 'x') ∧
    flipBit (flipBit s i) i = s := by
  obtain ⟨l⟩ := s
  have h7' : l.length = 7 := h7
  have hi' : i < l.length := by omega
  refine ⟨?_, ?_, ?_, ?_⟩
  · show (l.set i (if l.getD i 'x' = '0' then '1' else '0')).length = 7
    rw [List.length_set]
    exact h7'
  · show (l.set i (if l.getD i 'x' = '0' then '1' else '0')).getD i 'x' ≠
      l.getD i 'x'
    rw [getD_set_self l i _ 'x' hi']
    by_cases hc : l.getD i 'x' = '0'
    · rw [if_pos hc, hc]
      decide
    · rw [if_neg hc]
      exact fun h => hc h.symm
  · intro j hj hji
    show (l.set i (if l.getD i 'x' = '0' then '1' else '0')).getD j 'x' =
      l.getD j 'x'
    exact getD_set_ne l i j _ 'x' (Ne.symm hji)
  · show String.mk ((l.set i (if l.getD i 'x' = '0' then '1' else '0')).set i
      (if (l.set i (if l.getD i 'x' = '0' then '1' else '0')).getD i 'x' = '0'
        then '1' else '0')) = String.mk l
    rw [getD_set_self l i _ 'x' hi', List.set_set]
    rcases hb (l.getD i 'x') (getD_mem l i 'x' hi') with h0 | h1
    · rw [h0, if_pos rfl, if_neg (by decide : ¬('1' : Char) = '0'), ← h0,
        set_getD_self l i 'x' hi']
    · rw [h1, if_neg (by decide : ¬('1' : Char) = '0'), if_pos rfl, ← h1,
        set_getD_self l i 'x' hi']

/-- Witness for C9 at the codeword "0110011" and index 3. -/
theorem flipBit_toggles_exactly_one_bit_witness :
    (("0110011" : String).length = 7 ∧ isBinary "0110011" ∧ 3 < 7) ∧
    flipBit (flipBit "0110011" 3) 3 = "0110011" :=
  ⟨⟨by decide, by decide, by decide⟩,
    (flipBit_toggles_exactly_one_bit "0110011" 3 (by decide) (by decide)
      (by decide)).2.2.2⟩

end IntegrityHub
